import Mathlib

/-!
Verification of the username-generation / account-creation core of the
cats-api repository (`app/services/user_service.py`,
`app/repositories/user_repository.py`, `app/core/security.py`), as a shallow
embedding in Lean.  External collaborators (MongoDB, bcrypt, hashlib.md5,
python-jose, unicodedata) are modelled as explicit parameters or small
abstract models; the repository's own Python logic is translated line by
line.
-/

namespace CatsApi

/-! ### Basic string helpers (models of Python primitives)

Python strings are embedded as Lean `String`; all operations are defined on
the underlying `List Char` so that they are structurally recursive and
kernel-reducible. -/

/-- Model of Python `str.lower()` (restricted to the basic-latin range that
this code base manipulates): character-wise lower-casing. -/
def pyLower (s : String) : String := ⟨s.data.map Char.toLower⟩

/-- Model of Python slicing `s[:n]`: the first `n` characters. -/
def strTake (s : String) (n : Nat) : String := ⟨s.data.take n⟩

/-- Does `hay` begin with `pat`? (helper for substring containment). -/
def listBeginsWith : List Char → List Char → Bool
  | [], _ => true
  | _ :: _, [] => false
  | p :: ps, c :: cs => p == c && listBeginsWith ps cs

/-- Does `hay` contain `pat` as a contiguous run? -/
def listIn (pat : List Char) : List Char → Bool
  | [] => listBeginsWith pat []
  | c :: cs => listBeginsWith pat (c :: cs) || listIn pat cs

/-- Model of the Python membership test `pat in hay` on strings. -/
def strIn (pat hay : String) : Bool := listIn pat.data hay.data

/-- Accumulator-based splitter: `acc` is the current word, reversed. -/
def pySplitAux : List Char → List Char → List (List Char)
  | [], acc => if acc.isEmpty then [] else [acc.reverse]
  | c :: cs, acc =>
    if c.isWhitespace then
      if acc.isEmpty then pySplitAux cs [] else acc.reverse :: pySplitAux cs []
    else pySplitAux cs (c :: acc)

/-- Model of Python `str.split()` with no argument: split on runs of
whitespace, discarding empty pieces. -/
def pySplit (l : List Char) : List (List Char) := pySplitAux l []

/-! ### Decimal rendering (`Nat.repr`) facts

The Python code renders the loop counter and the timestamp with f-strings,
embedded as `Nat.repr`.  The claims need that this rendering is injective,
non-empty, and consists of digits only; none of this is in Mathlib for the
`Nat.toDigits` used by `Nat.repr`, so it is proved here via an explicit
decimal reader. -/

/-- Decimal reader, left inverse of `Nat.toDigits 10`. -/
def readAux : List Char → Nat → Nat
  | [], a => a
  | c :: cs, a => readAux cs (a * 10 + (c.toNat - 48))

theorem readAux_append (l1 l2 : List Char) (a : Nat) :
    readAux (l1 ++ l2) a = readAux l2 (readAux l1 a) := by
  induction l1 generalizing a with
  | nil => rfl
  | cons c cs ih => simp [readAux, ih]

theorem digitChar_toNat {d : Nat} (h : d < 10) :
    (Nat.digitChar d).toNat = 48 + d := by
  interval_cases d <;> rfl

theorem digitChar_isDigit {d : Nat} (h : d < 10) :
    (Nat.digitChar d).isDigit = true := by
  interval_cases d <;> rfl

theorem toDigitsCore_shift (fuel n : Nat) (ds : List Char) :
    Nat.toDigitsCore 10 fuel n ds = Nat.toDigitsCore 10 fuel n [] ++ ds := by
  induction fuel generalizing n ds with
  | zero => simp [Nat.toDigitsCore]
  | succ fuel ih =>
    simp only [Nat.toDigitsCore]
    by_cases h : n / 10 = 0
    · simp [h]
    · simp only [h, if_false]
      rw [ih (n / 10) (Nat.digitChar (n % 10) :: ds),
          ih (n / 10) [Nat.digitChar (n % 10)]]
      simp

theorem toDigitsCore_fuel (fuel fuel' n : Nat) (ds : List Char)
    (h : n < fuel) (h' : n < fuel') :
    Nat.toDigitsCore 10 fuel n ds = Nat.toDigitsCore 10 fuel' n ds := by
  induction fuel generalizing fuel' n ds with
  | zero => omega
  | succ fuel ih =>
    match fuel', h' with
    | fuel' + 1, h' =>
      simp only [Nat.toDigitsCore]
      by_cases h0 : n / 10 = 0
      · simp [h0]
      · simp only [h0, if_false]
        have hn10 : n ≥ 10 := by
          by_contra hc
          exact h0 (Nat.div_eq_of_lt (by omega))
        have hlt : n / 10 < n := Nat.div_lt_self (by omega) (by omega)
        exact ih fuel' (n / 10) (Nat.digitChar (n % 10) :: ds) (by omega) (by omega)

theorem toDigits_lt {n : Nat} (h : n < 10) :
    Nat.toDigits 10 n = [Nat.digitChar n] := by
  simp [Nat.toDigits, Nat.toDigitsCore, Nat.div_eq_of_lt h, Nat.mod_eq_of_lt h]

theorem toDigits_ge {n : Nat} (h : 10 ≤ n) :
    Nat.toDigits 10 n = Nat.toDigits 10 (n / 10) ++ [Nat.digitChar (n % 10)] := by
  have h0 : ¬ n / 10 = 0 := by
    intro hc
    have := Nat.div_eq_of_lt (show n < 10 by
      by_contra hge
      have := Nat.le_div_iff_mul_le (by omega : 0 < 10) |>.2
        (show 1 * 10 ≤ n by omega)
      omega)
    omega
  simp only [Nat.toDigits, Nat.toDigitsCore, h0, if_false]
  rw [toDigitsCore_shift]
  congr 1
  exact toDigitsCore_fuel n (n / 10 + 1) (n / 10) []
    (Nat.div_lt_self (by omega) (by omega)) (Nat.lt_succ_self _)

theorem readAux_toDigits (n : Nat) : ∀ a : Nat,
    readAux (Nat.toDigits 10 n) a = a * 10 ^ (Nat.toDigits 10 n).length + n := by
  induction n using Nat.strong_induction_on with
  | _ n ih =>
    intro a
    by_cases h : n < 10
    · rw [toDigits_lt h]
      simp [readAux, digitChar_toNat h]
    · push_neg at h
      rw [toDigits_ge h, readAux_append]
      have hlt : n / 10 < n := Nat.div_lt_self (by omega) (by omega)
      rw [ih (n / 10) hlt a]
      simp only [readAux, List.length_append, List.length_cons, List.length_nil]
      rw [digitChar_toNat (Nat.mod_lt _ (by omega))]
      have : (a * 10 ^ (Nat.toDigits 10 (n / 10)).length + n / 10) * 10 +
          (48 + n % 10 - 48) =
          a * (10 ^ (Nat.toDigits 10 (n / 10)).length * 10) + (n / 10 * 10 + n % 10) := by
        ring_nf
        omega
      rw [this, Nat.div_add_mod' n 10]
      ring_nf

theorem readAux_toDigits_zero (n : Nat) : readAux (Nat.toDigits 10 n) 0 = n := by
  rw [readAux_toDigits n 0]; simp

theorem repr_injective {m n : Nat} (h : Nat.repr m = Nat.repr n) : m = n := by
  have hd : Nat.toDigits 10 m = Nat.toDigits 10 n := by
    have := congrArg String.data h
    simpa [Nat.repr, List.asString] using this
  have := readAux_toDigits_zero m
  rw [hd, readAux_toDigits_zero n] at this
  omega

theorem toDigits_ne_nil (n : Nat) : Nat.toDigits 10 n ≠ [] := by
  by_cases h : n < 10
  · rw [toDigits_lt h]; simp
  · rw [toDigits_ge (by omega)]; simp

theorem repr_data (n : Nat) : (Nat.repr n).data = Nat.toDigits 10 n := by
  simp [Nat.repr, List.asString]

theorem repr_ne_empty (n : Nat) : (Nat.repr n).data ≠ [] := by
  rw [repr_data]; exact toDigits_ne_nil n

theorem toDigits_all_digits (n : Nat) :
    ∀ c ∈ Nat.toDigits 10 n, c.isDigit = true := by
  induction n using Nat.strong_induction_on with
  | _ n ih =>
    intro c hc
    by_cases h : n < 10
    · rw [toDigits_lt h] at hc
      simp at hc
      subst hc
      exact digitChar_isDigit h
    · push_neg at h
      rw [toDigits_ge h] at hc
      simp at hc
      rcases hc with hc | hc
      · exact ih (n / 10) (Nat.div_lt_self (by omega) (by omega)) c hc
      · subst hc
        exact digitChar_isDigit (Nat.mod_lt _ (by omega))

/-! ### String append facts -/

theorem strAppend_data (s t : String) : (s ++ t).data = s.data ++ t.data := rfl

theorem strExt {s t : String} (h : s.data = t.data) : s = t :=
  congrArg String.mk h

theorem strAppend_left_cancel {s t t' : String} (h : s ++ t = s ++ t') : t = t' := by
  apply strExt
  have := congrArg String.data h
  rw [strAppend_data, strAppend_data] at this
  exact List.append_cancel_left this

theorem strAppend_ne_self {s t : String} (h : t.data ≠ []) : s ++ t ≠ s := by
  intro hc
  have := congrArg String.data hc
  rw [strAppend_data] at this
  have hlen := congrArg List.length this
  simp [List.length_append] at hlen
  exact h (List.length_eq_zero.mp hlen)

/-! ### Identity Normalizer (`UserService._generate_username`)

`unicodedata.normalize('NFD', ·)` and `unicodedata.category(·) == 'Mn'` are
Python-stdlib collaborators.  They are modelled here restricted to the
character repertoire this program is exercised with: precomposed Latin
letters carrying an acute accent, a tilde or a diaeresis decompose into
their base letter followed by the corresponding combining mark
(U+0301/U+0303/U+0308); every other character is its own (trivial) canonical
decomposition, which is exact for ASCII. -/

/-- U+0301 COMBINING ACUTE ACCENT. -/
def comboAcute : Char := Char.ofNat 0x301

/-- U+0303 COMBINING TILDE. -/
def comboTilde : Char := Char.ofNat 0x303

/-- U+0308 COMBINING DIAERESIS. -/
def comboUml : Char := Char.ofNat 0x308

/-- Model of `unicodedata.category c == 'Mn'`: the combining diacritical
marks block U+0300–U+036F (the only `Mn` characters this model produces). -/
def isCombMark (c : Char) : Bool := 0x300 ≤ c.toNat && c.toNat ≤ 0x36F

/-- Model of the NFD canonical decomposition of one character
(`unicodedata.normalize('NFD', ·)`), restricted as described above. -/
def nfdChar (c : Char) : List Char :=
  if c = 'á' then ['a', comboAcute] else
  if c = 'é' then ['e', comboAcute] else
  if c = 'í' then ['i', comboAcute] else
  if c = 'ó' then ['o', comboAcute] else
  if c = 'ú' then ['u', comboAcute] else
  if c = 'ñ' then ['n', comboTilde] else
  if c = 'ü' then ['u', comboUml] else
  if c = 'Á' then ['A', comboAcute] else
  if c = 'É' then ['E', comboAcute] else
  if c = 'Í' then ['I', comboAcute] else
  if c = 'Ó' then ['O', comboAcute] else
  if c = 'Ú' then ['U', comboAcute] else
  if c = 'Ñ' then ['N', comboTilde] else
  if c = 'Ü' then ['U', comboUml] else
  [c]

/-- NFD decomposition of a character list. -/
def nfdList : List Char → List Char
  | [] => []
  | c :: cs => nfdChar c ++ nfdList cs

/-- Is `c` an ASCII letter (the regex class `[a-zA-Z]`)? -/
def isAsciiAZ (c : Char) : Bool :=
  ('a' ≤ c && c ≤ 'z') || ('A' ≤ c && c ≤ 'Z')

/-- One name field's cleaning pipeline from `_generate_username`:
NFD-normalize, drop combining marks (`category != 'Mn'`), lower-case, then
`re.sub(r'[^a-zA-Z]', '', ·)`. -/
def cleanChars (l : List Char) : List Char :=
  (((nfdList l).filter (fun c => !isCombMark c)).map Char.toLower).filter isAsciiAZ

/-- String-level cleaning, as applied to `first_name` and `last_name`. -/
def cleanName (s : String) : String := ⟨cleanChars s.data⟩

/-- Embedding of `UserService._generate_username`.  `t` is the value of
`int(time.time())` (the injected clock).  Note the faithful ordering: the
whitespace split of the last name happens on `last_clean`, i.e. *after*
`re.sub` has already removed all whitespace. -/
def generateUsername (t : Nat) (first_name last_name : String) : String :=
  let first_clean := cleanName first_name
  let last_clean := cleanName last_name
  let last_words := pySplit last_clean.data
  let last_clean2 := match last_words with
    | [] => last_clean
    | w :: _ => ⟨w⟩
  let username := first_clean ++ "." ++ last_clean2
  if first_clean = "" ∨ last_clean2 = "" then "user" ++ Nat.repr t
  else username

theorem cleanChars_mem_isAZ {l : List Char} {c : Char} (h : c ∈ cleanChars l) :
    isAsciiAZ c = true := (List.mem_filter.mp h).2

theorem isAZ_not_ws {c : Char} (h : isAsciiAZ c = true) :
    c.isWhitespace = false := by
  by_contra hb
  simp only [Bool.not_eq_false] at hb
  have hd : c = ' ' ∨ c = '\t' ∨ c = '\x0d' ∨ c = '\n' := by
    have := hb
    simp only [Char.isWhitespace, Bool.or_eq_true, decide_eq_true_eq] at this
    tauto
  rcases hd with rfl | rfl | rfl | rfl <;> exact absurd h (by decide)

theorem pySplitAux_no_ws {l : List Char}
    (h : ∀ c ∈ l, c.isWhitespace = false) :
    ∀ acc, pySplitAux l acc =
      if (acc.reverse ++ l).isEmpty then [] else [acc.reverse ++ l] := by
  induction l with
  | nil =>
    intro acc
    simp [pySplitAux, List.isEmpty_iff]
  | cons c cs ih =>
    intro acc
    have hc : c.isWhitespace = false := h c (List.mem_cons_self c cs)
    rw [pySplitAux]
    simp only [hc, Bool.false_eq_true, if_false]
    rw [ih (fun x hx => h x (List.mem_cons_of_mem c hx)) (c :: acc)]
    simp [List.isEmpty_iff]

/-- On a whitespace-free non-empty list, Python's `split()` returns the
whole list as the single word. -/
theorem pySplit_no_ws {l : List Char} (hne : l ≠ [])
    (h : ∀ c ∈ l, c.isWhitespace = false) : pySplit l = [l] := by
  rw [pySplit, pySplitAux_no_ws h []]
  simp [List.isEmpty_iff, hne]

/-- When both cleaned segments are non-empty, `_generate_username` returns
the full cleaned first name, a dot, and the full cleaned last name (the
compound-surname split is a no-op because the cleaned last name contains no
whitespace). -/
theorem generateUsername_nonempty {t : Nat} {first_name last_name : String}
    (h1 : cleanName first_name ≠ "") (h2 : cleanName last_name ≠ "") :
    generateUsername t first_name last_name =
      cleanName first_name ++ "." ++ cleanName last_name := by
  have hdata : (cleanName last_name).data ≠ [] := by
    intro hc
    exact h2 (strExt (by simpa using hc))
  have hws : ∀ c ∈ (cleanName last_name).data, c.isWhitespace = false := by
    intro c hc
    exact isAZ_not_ws (cleanChars_mem_isAZ hc)
  simp only [generateUsername, pySplit_no_ws hdata hws]
  have : (⟨(cleanName last_name).data⟩ : String) = cleanName last_name := strExt rfl
  rw [this]
  simp [h1, h2]

/-- When either cleaned segment is empty, the synthetic
`"user" + timestamp` fallback is returned. -/
theorem generateUsername_fallback {t : Nat} {first_name last_name : String}
    (h : cleanName first_name = "" ∨ cleanName last_name = "") :
    generateUsername t first_name last_name = "user" ++ Nat.repr t := by
  rcases h with h | h
  · simp [generateUsername, h]
  · have : (cleanName last_name).data = [] := by rw [h]
    simp [generateUsername, this, pySplit, pySplitAux, h]

/-! ### Uniqueness Resolver (`UserService._get_unique_username`)

The repository's existence probe is injected as `ex : String → Bool`;
`md5` models `hashlib.md5(·).hexdigest()` (an external primitive, kept
abstract); `t` is `int(time.time())`.  Besides the resulting username the
embedding returns the list of candidates on which `ex` was consulted, in
order — one entry per loop iteration, making the iteration count and the
set of existence checks observable. -/

/-- One state of the `while` loop of `_get_unique_username`:
`username` is the current candidate, `counter` the loop counter (starting
at 1), `trace` the existence checks performed so far. -/
def resolveAux (md5 : String → String) (t : Nat) (ex : String → Bool)
    (base : String) : String → Nat → List String → String × List String :=
  fun username counter trace =>
  if ex username then
    let username' :=
      if counter ≤ 999 then base ++ Nat.repr counter
      else base ++ "." ++ strTake (md5 (base ++ Nat.repr t)) 6
    let counter' := counter + 1
    if 1000 < counter' then
      ("user." ++ strTake (md5 (base ++ Nat.repr t ++ Nat.repr counter')) 8,
       trace ++ [username])
    else resolveAux md5 t ex base username' counter' (trace ++ [username])
  else (username, trace ++ [username])
termination_by _ counter _ => 1001 - counter
decreasing_by omega

/-- Embedding of `_get_unique_username`, with its trace of existence
checks. -/
def getUniqueUsername (md5 : String → String) (t : Nat) (ex : String → Bool)
    (base : String) : String × List String :=
  resolveAux md5 t ex base base 1 []

/-- The username `_get_unique_username` actually returns. -/
def resolveUnique (md5 : String → String) (t : Nat) (ex : String → Bool)
    (base : String) : String :=
  (getUniqueUsername md5 t ex base).fst

/-- The `j`-th tier-1 candidate: `base` itself for `j = 0`, else
`base ++ repr j`. -/
def cand (base : String) : Nat → String
  | 0 => base
  | j + 1 => base ++ Nat.repr (j + 1)

/-- The first `n` tier-1 candidates, in the order the loop tries them. -/
def candList (base : String) (n : Nat) : List String :=
  (List.range n).map (cand base)

theorem candList_succ (base : String) (n : Nat) :
    candList base (n + 1) = candList base n ++ [cand base n] := by
  simp [candList, List.range_succ]

/-- The tier-3 synthetic fallback name `"user." + hash8`. -/
def fallbackName (md5 : String → String) (t : Nat) (base : String) : String :=
  "user." ++ strTake (md5 (base ++ Nat.repr t ++ Nat.repr 1001)) 8

/-- The (dead) tier-2 candidate `base + "." + hash6`. -/
def tier2Name (md5 : String → String) (t : Nat) (base : String) : String :=
  base ++ "." ++ strTake (md5 (base ++ Nat.repr t)) 6

theorem resolveAux_exit {md5 t ex base username counter trace}
    (h : ex username = false) :
    resolveAux md5 t ex base username counter trace =
      (username, trace ++ [username]) := by
  rw [resolveAux]
  simp [h]

theorem resolveAux_step {md5 t ex base username counter trace}
    (h : ex username = true) (hc : counter ≤ 999) :
    resolveAux md5 t ex base username counter trace =
      resolveAux md5 t ex base (base ++ Nat.repr counter) (counter + 1)
        (trace ++ [username]) := by
  rw [resolveAux]
  simp only [h, if_true, hc]
  have : ¬ 1000 < counter + 1 := by omega
  simp [this]

/-- The break: at `counter = 1000` the loop body first assigns the tier-2
candidate `base + "." + hash6`, then increments the counter past the
safety bound and unconditionally overwrites the username with the tier-3
fallback before any further existence check. -/
theorem resolveAux_break {md5 t ex base username trace}
    (h : ex username = true) :
    resolveAux md5 t ex base username 1000 trace =
      (fallbackName md5 t base, trace ++ [username]) := by
  rw [resolveAux]
  simp [h, fallbackName]

/-- Walking the loop: if the first `k` tier-1 candidates all exist
(`k ≤ 999`), the resolver reaches candidate `k` with counter `k + 1`. -/
theorem resolve_walk {md5 t ex base} (k : Nat) (hk : k ≤ 999)
    (hall : ∀ j, j < k → ex (cand base j) = true) :
    getUniqueUsername md5 t ex base =
      resolveAux md5 t ex base (cand base k) (k + 1) (candList base k) := by
  induction k with
  | zero => rfl
  | succ k ih =>
    have hk' : k ≤ 999 := by omega
    rw [ih hk' (fun j hj => hall j (by omega))]
    rw [resolveAux_step (hall k (by omega)) (by omega)]
    congr 1
    exact (candList_succ base k).symm

/-- Tier-1 resolution: if candidates `0..k-1` are taken and candidate `k`
is free (`k ≤ 999`), the resolver returns candidate `k` having checked
exactly candidates `0..k`. -/
theorem resolve_first_free {md5 t ex base} (k : Nat) (hk : k ≤ 999)
    (hall : ∀ j, j < k → ex (cand base j) = true)
    (hfree : ex (cand base k) = false) :
    getUniqueUsername md5 t ex base = (cand base k, candList base (k + 1)) := by
  rw [resolve_walk k hk hall, resolveAux_exit hfree, candList_succ]

/-- Exhaustion: if all 1000 tier-1 candidates are taken, the resolver
returns the tier-3 fallback name after exactly 1000 existence checks — on
the tier-1 candidates only.  In particular the tier-2 candidate
`base + "." + hash6` is never consulted and never returned. -/
theorem resolve_exhausted {md5 t ex base}
    (hall : ∀ j, j ≤ 999 → ex (cand base j) = true) :
    getUniqueUsername md5 t ex base =
      (fallbackName md5 t base, candList base 1000) := by
  rw [resolve_walk 999 (by omega) (fun j hj => hall j (by omega))]
  rw [resolveAux_break (hall 999 (by omega))]
  exact congrArg _ (candList_succ base 999).symm

/-- Username-level reading of `resolve_first_free`. -/
theorem resolve_first_free_name {md5 : String → String} {t : Nat}
    {ex : String → Bool} {base : String} (k : Nat) (hk : k ≤ 999)
    (hall : ∀ j, j < k → ex (cand base j) = true)
    (hfree : ex (cand base k) = false) :
    resolveUnique md5 t ex base = cand base k := by
  have h := @resolve_first_free md5 t ex base k hk hall hfree
  have hfst : resolveUnique md5 t ex base =
      (getUniqueUsername md5 t ex base).fst := rfl
  rw [hfst, h]

/-- Username-level reading of `resolve_exhausted`. -/
theorem resolve_exhausted_name {md5 : String → String} {t : Nat}
    {ex : String → Bool} {base : String}
    (hall : ∀ j, j ≤ 999 → ex (cand base j) = true) :
    resolveUnique md5 t ex base = fallbackName md5 t base := by
  have h := @resolve_exhausted md5 t ex base hall
  have hfst : resolveUnique md5 t ex base =
      (getUniqueUsername md5 t ex base).fst := rfl
  rw [hfst, h]

/-- Iteration bound: from any state with `counter ≤ 1000` the loop adds at
most `1001 - counter` entries to the trace. -/
theorem resolveAux_trace_le {md5 t ex base} :
    ∀ n counter, 1001 - counter = n → counter ≤ 1000 →
    ∀ username trace,
      (resolveAux md5 t ex base username counter trace).snd.length ≤
        trace.length + n := by
  intro n
  induction n using Nat.strong_induction_on with
  | _ n ih =>
    intro counter hn hcount username trace
    rw [resolveAux]
    by_cases h : ex username = true
    · simp only [h, if_true]
      by_cases hbig : 1000 < counter + 1
      · simp only [hbig, if_true]
        simp only [List.length_append, List.length_cons, List.length_nil]
        omega
      · simp only [hbig, if_false]
        have := ih (1001 - (counter + 1)) (by omega) (counter + 1) rfl (by omega)
          (if counter ≤ 999 then base ++ Nat.repr counter
           else base ++ "." ++ strTake (md5 (base ++ Nat.repr t)) 6)
          (trace ++ [username])
        simp only [List.length_append, List.length_cons, List.length_nil] at this ⊢
        omega
    · simp only [h, if_false]
      show (trace ++ [username]).length ≤ trace.length + n
      simp only [List.length_append, List.length_cons, List.length_nil]
      omega

/-- The resolver performs at most 1000 existence checks, for every
existence predicate. -/
theorem resolve_at_most_1000 (md5 : String → String) (t : Nat)
    (ex : String → Bool) (base : String) :
    (getUniqueUsername md5 t ex base).snd.length ≤ 1000 := by
  have := @resolveAux_trace_le md5 t ex base 1000 1 rfl (by omega) base []
  simpa using this

/-! ### Data model (`app/models/user.py`, `app/schemas/user.py`)

Datetimes are embedded as `Nat` unix timestamps (the injected clock). -/

/-- Model of `app.models.user.User` — the persistent entity, password hash
included. -/
structure User where
  id : Option String
  first_name : String
  last_name : String
  username : String
  password : String
  email : Option String
  created_at : Nat
  updated_at : Nat
deriving DecidableEq, Repr

/-- Model of `app.schemas.user.UserCreate` — the creation payload. -/
structure UserCreate where
  first_name : String
  last_name : String
  password : String
  email : Option String
deriving DecidableEq, Repr

/-- Model of `app.schemas.user.UserResponse` — the outward projection; note
the absence of a password field. -/
structure UserResponse where
  id : Option String
  first_name : String
  last_name : String
  username : String
  email : Option String
  created_at : Nat
  updated_at : Nat
deriving DecidableEq, Repr

/-- The `UserResponse(...)` construction the service repeats verbatim in
`create_user`, `get_all_users`, `authenticate_user` and
`get_user_by_username`. -/
def toResponse (u : User) : UserResponse :=
  { id := u.id
    first_name := u.first_name
    last_name := u.last_name
    username := u.username
    email := u.email
    created_at := u.created_at
    updated_at := u.updated_at }

/-- Interface `app.repositories.user_repository_interface.UserRepositoryInterface`,
over an abstract store state `σ`.  `create_user` returns the error message
of the raised exception on failure (the service only ever inspects
`str(e)`), together with the successor store state. -/
structure Repo (σ : Type) where
  username_exists : σ → String → Bool
  create_user : σ → User → Except String User × σ
  get_user_by_username : σ → String → Option User
  get_all_users : σ → List User

/-! ### Account Creator (`UserService.create_user`) -/

/-- The service's duplicate test:
`"duplicate" in str(e).lower() or "unique" in str(e).lower()`. -/
def isDuplicateMsg (e : String) : Bool :=
  strIn "duplicate" (pyLower e) || strIn "unique" (pyLower e)

/-- The retry loop of `create_user` (`for attempt in range(3)`), with the
list of usernames handed to `repository.create_user` as an observable
trace.  On a failure flagged as duplicate with `attempt < 2`, the username
is re-resolved from the same `base` against the current store and the
insert retried; on the third duplicate failure the terminal message is
raised; any other failure is re-raised unchanged.  (The `for/else` branch
of the Python loop is unreachable: every iteration either breaks or
raises.) -/
def createLoop {σ : Type} (R : Repo σ) (md5 : String → String) (t : Nat)
    (base : String) : Nat → User → σ → List String →
    Except String (User × σ) × List String :=
  fun attempt user s itrace =>
  match R.create_user s user with
  | (Except.ok created, s') => (Except.ok (created, s'), itrace ++ [user.username])
  | (Except.error e, s') =>
    if isDuplicateMsg e then
      if attempt < 2 then
        createLoop R md5 t base (attempt + 1)
          { user with
            username := resolveUnique md5 t (R.username_exists s') base }
          s' (itrace ++ [user.username])
      else (Except.error "Failed to create unique username after 3 attempts",
            itrace ++ [user.username])
    else (Except.error e, itrace ++ [user.username])
termination_by attempt _ _ _ => 3 - attempt
decreasing_by omega

/-- The outer `try/except` of `create_user`: a successful insert is
projected to a `UserResponse`, any raised message is re-raised wrapped in
`"Error creating user: "`. -/
def createUserWrap {σ : Type} :
    Except String (User × σ) × List String →
    Except String (UserResponse × σ) × List String
  | (Except.ok (created, s'), tr) => (Except.ok (toResponse created, s'), tr)
  | (Except.error e, tr) => (Except.error ("Error creating user: " ++ e), tr)

/-- Embedding of `UserService.create_user`.  `hashPw` models
`get_password_hash` (bcrypt, opaque). -/
def createUserSvc {σ : Type} (R : Repo σ) (md5 hashPw : String → String)
    (t : Nat) (uc : UserCreate) (s : σ) :
    Except String (UserResponse × σ) × List String :=
  let base := generateUsername t uc.first_name uc.last_name
  let unique_username := resolveUnique md5 t (R.username_exists s) base
  let hashed := hashPw uc.password
  let user : User :=
    { id := none
      first_name := uc.first_name
      last_name := uc.last_name
      username := unique_username
      password := hashed
      email := uc.email
      created_at := t
      updated_at := t }
  createUserWrap (createLoop R md5 t base 0 user s [])

/-- Embedding of `UserService.get_all_users`. -/
def getAllUsersSvc {σ : Type} (R : Repo σ) (s : σ) : List UserResponse :=
  (R.get_all_users s).map toResponse

/-- Embedding of `UserService.get_user_by_username`. -/
def getUserByUsernameSvc {σ : Type} (R : Repo σ) (s : σ) (username : String) :
    Option UserResponse :=
  (R.get_user_by_username s username).map toResponse

/-- Embedding of `UserService.authenticate_user`; `verify` models
`verify_password` (bcrypt.checkpw, opaque). -/
def authenticateUser {σ : Type} (R : Repo σ)
    (verify : String → String → Bool) (s : σ)
    (username password : String) : Option UserResponse :=
  match R.get_user_by_username s username with
  | none => none
  | some user =>
    if verify password user.password then some (toResponse user) else none

/-! ### Mongo-backed repository (`MongoUserRepository`)

The Mongo driver is external; its observable contract used here is: the
collection holds a list of documents with a unique index on `username`,
`insert_one` on a conflicting document raises `DuplicateKeyError` whose
`str(e)` names the violated index (`username_1`), and the assigned
`_id` is modelled as the insertion rank. -/

/-- Outcome of the raw driver call, distinguishing `DuplicateKeyError`
from other exceptions (`MongoUserRepository` branches on this type). -/
inductive MongoErr where
  | dupKey (msg : String)
  | other (msg : String)
deriving DecidableEq, Repr

/-- Model of the `str(e)` of a `DuplicateKeyError` for the unique index
on `username`. -/
def mongoDupMsg : String :=
  "E11000 duplicate key error collection: cats_db.users index: username_1 dup key"

/-- Exception-to-`ValueError` translation performed by
`MongoUserRepository.create_user` around a raw insert. -/
def mongoRepoCreate {σ : Type}
    (ins : σ → User → Except MongoErr User × σ) :
    σ → User → Except String User × σ :=
  fun s u =>
  match ins s u with
  | (Except.ok u', s') => (Except.ok u', s')
  | (Except.error (MongoErr.dupKey m), s') =>
    if strIn "username" m then
      (Except.error ("Username '" ++ u.username ++ "' already exists"), s')
    else (Except.error "Duplicate data error occurred", s')
  | (Except.error (MongoErr.other m), s') =>
    (Except.error ("Database error: " ++ m), s')

/-- In-memory model of the `users` collection with its unique index on
`username`: `insert_one` assigns `_id` from the insertion rank and raises
`DuplicateKeyError` on a username already present. -/
def mongoInsert (s : List User) (u : User) : Except MongoErr User × List User :=
  if s.any (fun x => x.username == u.username) then
    (Except.error (MongoErr.dupKey mongoDupMsg), s)
  else
    let u' := { u with id := some ("oid" ++ Nat.repr s.length) }
    (Except.ok u', s ++ [u'])

/-- Embedding of `MongoUserRepository` over the in-memory collection model. -/
def memRepo : Repo (List User) where
  username_exists s uname := s.any (fun x => x.username == uname)
  create_user := mongoRepoCreate mongoInsert
  get_user_by_username s uname := s.find? (fun x => x.username == uname)
  get_all_users s := s

/-! ### Sequential account creation -/

/-- N sequential `create_user` calls against an initially empty store:
call `i` uses payload `ucs i` and bcrypt instance `hs i` (bcrypt output is
salted, hence per-call).  Returns the final store and the list of usernames
of the successful responses, in order. -/
def seqState (md5 : String → String) (ucs : Nat → UserCreate)
    (hs : Nat → String → String) (t : Nat) : Nat → List User × List String
  | 0 => ([], [])
  | n + 1 =>
    let p := seqState md5 ucs hs t n
    match createUserSvc memRepo md5 (hs n) t (ucs n) p.fst with
    | (Except.ok (resp, s'), _) => (s', p.snd ++ [resp.username])
    | (Except.error _, _) => p

/-- The draft user as persisted by a successful insert. -/
def insertedUser (uc : UserCreate) (hashPw : String → String) (t : Nat)
    (uname oid : String) : User :=
  { id := some oid
    first_name := uc.first_name
    last_name := uc.last_name
    username := uname
    password := hashPw uc.password
    email := uc.email
    created_at := t
    updated_at := t }

/-- The user persisted by the `n`-th sequential creation. -/
def mkUserK (ucs : Nat → UserCreate) (hs : Nat → String → String) (t : Nat)
    (base : String) (n : Nat) : User :=
  insertedUser (ucs n) (hs n) t (cand base n) ("oid" ++ Nat.repr n)

/-- The store contents after `n` sequential creations. -/
def storeK (ucs : Nat → UserCreate) (hs : Nat → String → String) (t : Nat)
    (base : String) (n : Nat) : List User :=
  (List.range n).map (mkUserK ucs hs t base)

theorem cand_inj {base : String} {i j : Nat} (h : cand base i = cand base j) :
    i = j := by
  match i, j with
  | 0, 0 => rfl
  | 0, j + 1 =>
    exact absurd h.symm (strAppend_ne_self (repr_ne_empty (j + 1)))
  | i + 1, 0 =>
    exact absurd h (strAppend_ne_self (repr_ne_empty (i + 1)))
  | i + 1, j + 1 =>
    have := repr_injective (@strAppend_left_cancel base _ _ h)
    omega

theorem cand_mem_candList {base : String} {j n : Nat} :
    cand base j ∈ candList base n ↔ j < n := by
  constructor
  · intro h
    rcases List.mem_map.mp h with ⟨i, hi, hci⟩
    rw [← cand_inj hci]
    exact List.mem_range.mp hi
  · intro h
    exact List.mem_map.mpr ⟨j, List.mem_range.mpr h, rfl⟩

theorem memRepo_exists_iff {s : List User} {u : String} :
    memRepo.username_exists s u = true ↔ u ∈ s.map (fun x => x.username) := by
  simp only [memRepo, List.any_eq_true, List.mem_map, beq_iff_eq]

theorem memRepo_exists_false {s : List User} {u : String}
    (h : u ∉ s.map (fun x => x.username)) :
    memRepo.username_exists s u = false := by
  rw [Bool.eq_false_iff]
  intro hc
  exact h (memRepo_exists_iff.mp hc)

theorem createLoop_ok {σ : Type} {R : Repo σ} {md5 : String → String}
    {t : Nat} {base : String} {attempt : Nat} {user : User} {s s' : σ}
    {itrace : List String} {u' : User}
    (h : R.create_user s user = (Except.ok u', s')) :
    createLoop R md5 t base attempt user s itrace =
      (Except.ok (u', s'), itrace ++ [user.username]) := by
  rw [createLoop, h]

theorem createLoop_err_retry {σ : Type} {R : Repo σ} {md5 : String → String}
    {t : Nat} {base : String} (attempt : Nat) {user : User} {s s' : σ}
    {itrace : List String} {e : String}
    (h : R.create_user s user = (Except.error e, s'))
    (hdup : isDuplicateMsg e = true) (hatt : attempt < 2) :
    createLoop R md5 t base attempt user s itrace =
      createLoop R md5 t base (attempt + 1)
        { user with username := resolveUnique md5 t (R.username_exists s') base }
        s' (itrace ++ [user.username]) := by
  rw [createLoop, h]
  simp [hdup, hatt]

theorem createLoop_err_exhaust {σ : Type} {R : Repo σ} {md5 : String → String}
    {t : Nat} {base : String} (attempt : Nat) {user : User} {s s' : σ}
    {itrace : List String} {e : String}
    (h : R.create_user s user = (Except.error e, s'))
    (hdup : isDuplicateMsg e = true) (hatt : ¬ attempt < 2) :
    createLoop R md5 t base attempt user s itrace =
      (Except.error "Failed to create unique username after 3 attempts",
       itrace ++ [user.username]) := by
  rw [createLoop, h]
  simp [hdup, hatt]

theorem createLoop_err_other {σ : Type} {R : Repo σ} {md5 : String → String}
    {t : Nat} {base : String} {attempt : Nat} {user : User} {s s' : σ}
    {itrace : List String} {e : String}
    (h : R.create_user s user = (Except.error e, s'))
    (hdup : isDuplicateMsg e = false) :
    createLoop R md5 t base attempt user s itrace =
      (Except.error e, itrace ++ [user.username]) := by
  rw [createLoop, h]
  simp [hdup]

/-- A `create_user` call against a store holding exactly the first `n`
tier-1 candidates (`n ≤ 999`) resolves to candidate `n` and inserts it
first try. -/
theorem createUserSvc_clean {md5 hashPw : String → String} {t : Nat}
    {uc : UserCreate} {base : String} {s : List User} {n : Nat}
    (hb : generateUsername t uc.first_name uc.last_name = base)
    (hlen : s.length = n)
    (husers : s.map (fun x => x.username) = candList base n)
    (hn : n ≤ 999) :
    createUserSvc memRepo md5 hashPw t uc s =
      (Except.ok
        (toResponse (insertedUser uc hashPw t (cand base n) ("oid" ++ Nat.repr n)),
         s ++ [insertedUser uc hashPw t (cand base n) ("oid" ++ Nat.repr n)]),
       [cand base n]) := by
  have hall : ∀ j, j < n →
      memRepo.username_exists s (cand base j) = true := by
    intro j hj
    exact memRepo_exists_iff.mpr (by rw [husers]; exact cand_mem_candList.mpr hj)
  have hfree : memRepo.username_exists s (cand base n) = false := by
    apply memRepo_exists_false
    rw [husers]
    intro hc
    exact absurd (cand_mem_candList.mp hc) (by omega)
  have hres : resolveUnique md5 t (memRepo.username_exists s) base = cand base n := by
    unfold resolveUnique
    rw [resolve_first_free n hn hall hfree]
  have hins : memRepo.create_user s
      { id := none
        first_name := uc.first_name
        last_name := uc.last_name
        username := cand base n
        password := hashPw uc.password
        email := uc.email
        created_at := t
        updated_at := t } =
      (Except.ok (insertedUser uc hashPw t (cand base n) ("oid" ++ Nat.repr n)),
       s ++ [insertedUser uc hashPw t (cand base n) ("oid" ++ Nat.repr n)]) := by
    show mongoRepoCreate mongoInsert s _ = _
    unfold mongoRepoCreate mongoInsert
    rw [show (s.any fun x => x.username == cand base n) = false from hfree]
    simp only [Bool.false_eq_true, if_false, hlen]
    rfl
  simp only [createUserSvc, hb, hres]
  rw [createLoop_ok hins]
  rfl

/-- Characterization of the sequential-creation run: for `n ≤ 1000` every
creation succeeds, the store holds exactly the first `n` tier-1 candidates
and the responded usernames are `base, base1, …, base(n-1)` in order. -/
theorem seqState_eq (md5 : String → String) (ucs : Nat → UserCreate)
    (hs : Nat → String → String) (t : Nat) (f l : String)
    (hf : ∀ i, (ucs i).first_name = f) (hl : ∀ i, (ucs i).last_name = l) :
    ∀ n, n ≤ 1000 →
      seqState md5 ucs hs t n =
        (storeK ucs hs t (generateUsername t f l) n,
         candList (generateUsername t f l) n) := by
  intro n
  induction n with
  | zero => intro _; rfl
  | succ n ih =>
    intro hn
    have hstep := @createUserSvc_clean md5 (hs n) t (ucs n)
      (generateUsername t f l)
      (storeK ucs hs t (generateUsername t f l) n) n
      (by rw [hf n, hl n])
      (by simp [storeK])
      (by simp [storeK, mkUserK, candList, insertedUser])
      (by omega)
    rw [seqState]
    rw [ih (by omega)]
    simp only [hstep]
    rw [Prod.mk.injEq]
    refine ⟨?_, ?_⟩
    · simp [storeK, List.range_succ, mkUserK]
    · rw [candList_succ]
      rfl

/-! ### Token Service (`app/core/security.py`)

`python-jose`'s `jwt.encode`/`jwt.decode` are external collaborators.
They are modelled abstractly per their observable contract: a token is
either a payload signed under some key, or an arbitrary malformed string;
`decode` succeeds exactly on tokens signed under the verifying key whose
`exp` claim (when present) has not passed (`exp < now` is expired), and
returns the payload.  Non-`exp` claims are a string-keyed map, looked up
with `payload.get`. -/

/-- A JWT as seen by this model: a signed claims payload or garbage. -/
inductive Token where
  | signed (claims : List (String × String)) (exp : Option Nat) (key : String)
  | malformed (raw : String)
deriving DecidableEq, Repr

/-- Model of Python `dict.get` on the claims map. -/
def claimsGet (k : String) : List (String × String) → Option String
  | [] => none
  | (k', v) :: rest => if k' == k then some v else claimsGet k rest

/-- Model of `jose.jwt.encode(claims, key, algorithm)`. -/
def jwtEncode (key : String) (claims : List (String × String))
    (exp : Option Nat) : Token :=
  Token.signed claims exp key

/-- Model of `jose.jwt.decode(token, key, algorithms)` at clock `now`:
fails (raises `JWTError`) on malformed input, wrong key, or an expired
`exp` claim; otherwise yields the claims payload. -/
def jwtDecode (key : String) (now : Nat) :
    Token → Except String (List (String × String) × Option Nat)
  | Token.signed claims exp k =>
    if k == key then
      match exp with
      | some e => if e < now then Except.error "Signature has expired."
                  else Except.ok (claims, some e)
      | none => Except.ok (claims, none)
    else Except.error "Signature verification failed."
  | Token.malformed _ => Except.error "Not enough segments"

/-- Embedding of `create_access_token(data, expires_delta)`: sets
`exp = now + expires_delta` (default 15 minutes) and signs under the
application secret `key`. -/
def createAccessToken (key : String) (now : Nat)
    (data : List (String × String)) (expires_delta : Option Nat) : Token :=
  let expire := match expires_delta with
    | some d => now + d
    | none => now + 15 * 60
  jwtEncode key data (some expire)

/-- Embedding of `verify_token(token)`: decode, take the `"sub"` claim,
`None` on any `JWTError` or missing subject. -/
def verifyToken (key : String) (now : Nat) (token : Token) : Option String :=
  match jwtDecode key now token with
  | Except.error _ => none
  | Except.ok (claims, _) =>
    match claimsGet "sub" claims with
    | none => none
    | some username => some username

/-! ## Claims -/

/-- The last segment as the claim predicts it for a compound surname:
the cleaned *first whitespace-word* of the raw last name.  Written from the
spec's words, for comparison with the code's behavior. -/
def specFirstWordOfLast (last_name : String) : String :=
  match pySplit last_name.data with
  | [] => ""
  | w :: _ => cleanName ⟨w⟩

/-- C3, counterexample: for the compound surname `"Del Mar"` the code
produces `"ana.delmar"` — the segment after the dot is the concatenation
of *all* the surname's words, not the cleaned first word `"del"` the claim
predicts. -/
theorem c3_counterexample :
    generateUsername 0 "Ana" "Del Mar" = "ana.delmar" ∧
    specFirstWordOfLast "Del Mar" = "del" ∧
    generateUsername 0 "Ana" "Del Mar" ≠
      cleanName "Ana" ++ "." ++ specFirstWordOfLast "Del Mar" := by
  refine ⟨by decide, by decide, by decide⟩

/-- C3, amended: `_generate_username` splits `last_clean` only after
`re.sub(r'[^a-zA-Z]', '', ·)` has removed every whitespace character, so
the first-word rule is a no-op: for every input pair with non-empty
cleaned segments the segment after the `'.'` is the full cleaned last
name (all words concatenated), and the first name contributes its full
cleaned string. -/
theorem c3_amended (t : Nat) (first_name last_name : String)
    (h1 : cleanName first_name ≠ "") (h2 : cleanName last_name ≠ "") :
    generateUsername t first_name last_name =
      cleanName first_name ++ "." ++ cleanName last_name :=
  generateUsername_nonempty h1 h2

theorem c3_amended_witness :
    cleanName "Ana" ≠ "" ∧ cleanName "Del Mar" ≠ "" ∧
    generateUsername 0 "Ana" "Del Mar" =
      cleanName "Ana" ++ "." ++ cleanName "Del Mar" :=
  ⟨by decide, by decide, c3_amended 0 "Ana" "Del Mar" (by decide) (by decide)⟩

/-- C4: the worked examples of the spec hold, and on empty inputs the
function returns `"user"` followed by the decimal rendering of the current
unix timestamp (digits only), distinct for distinct timestamps — in
particular for two calls one second apart. -/
theorem c4_examples_and_fallback :
    (∀ t : Nat, generateUsername t "María" "González" = "maria.gonzalez") ∧
    (∀ t : Nat, generateUsername t "José" "Da Silva" = "jose.dasilva") ∧
    (∀ t : Nat, generateUsername t "John" "O'Connor" = "john.oconnor") ∧
    (∀ t : Nat, generateUsername t "" "" = "user" ++ Nat.repr t) ∧
    (∀ t : Nat, ∀ c ∈ (Nat.repr t).data, c.isDigit = true) ∧
    (∀ t t' : Nat, t ≠ t' →
      generateUsername t "" "" ≠ generateUsername t' "" "") := by
  have hemp : cleanName "" = "" := rfl
  refine ⟨fun t => rfl, fun t => rfl, fun t => rfl,
    fun t => generateUsername_fallback (Or.inl hemp), ?_, ?_⟩
  · intro t c hc
    rw [repr_data] at hc
    exact toDigits_all_digits t c hc
  · intro t t' hne hc
    rw [generateUsername_fallback (Or.inl hemp),
        generateUsername_fallback (Or.inl hemp)] at hc
    exact hne (repr_injective (strAppend_left_cancel hc))

theorem c4_examples_and_fallback_witness :
    generateUsername 5 "" "" = "user5" ∧ (5 : Nat) ≠ 6 ∧
    generateUsername 5 "" "" ≠ generateUsername 6 "" "" := by
  obtain ⟨-, -, -, h4, -, h6⟩ := c4_examples_and_fallback
  exact ⟨by rw [h4 5]; rfl, by decide, h6 5 6 (by decide)⟩

/-- C6: for every existence predicate the resolver performs at most 1000
existence checks (and, being a total function, terminates); under an
always-colliding predicate it performs exactly the 1000 tier-1 checks
`base, base1, …, base999` and returns the synthetic `"user." + hash8`
fallback, which never appears in the list of checked candidates'
positions — no further existence check is made on it. -/
theorem c6_resolver_bounded (md5 : String → String) (t : Nat)
    (ex : String → Bool) (base : String) :
    (getUniqueUsername md5 t ex base).snd.length ≤ 1000 ∧
    getUniqueUsername md5 t (fun _ => true) base =
      ("user." ++ strTake (md5 (base ++ Nat.repr t ++ Nat.repr 1001)) 8,
       candList base 1000) := by
  exact ⟨resolve_at_most_1000 md5 t ex base,
    resolve_exhausted (fun j hj => rfl)⟩

/-- C7: `authenticate_user` returns the projected account when the
username is found and the secret verifies; an unknown username and a
known username with a non-verifying secret both produce the identical
not-found result `None`. -/
theorem c7_authenticate (σ : Type) (R : Repo σ)
    (verify : String → String → Bool)
    (s1 s2 s3 : σ) (n1 n2 n3 p1 p2 p3 : String) (u1 u3 : User) :
    (R.get_user_by_username s1 n1 = some u1 → verify p1 u1.password = true →
      authenticateUser R verify s1 n1 p1 = some (toResponse u1)) ∧
    (R.get_user_by_username s2 n2 = none →
      authenticateUser R verify s2 n2 p2 = none) ∧
    (R.get_user_by_username s3 n3 = some u3 → verify p3 u3.password = false →
      authenticateUser R verify s3 n3 p3 = none) ∧
    (R.get_user_by_username s2 n2 = none →
     R.get_user_by_username s3 n3 = some u3 → verify p3 u3.password = false →
      authenticateUser R verify s3 n3 p3 = authenticateUser R verify s2 n2 p2) := by
  refine ⟨?_, ?_, ?_, ?_⟩
  · intro hf hv
    simp [authenticateUser, hf, hv]
  · intro hf
    simp [authenticateUser, hf]
  · intro hf hv
    simp [authenticateUser, hf, hv]
  · intro h2 hf hv
    simp [authenticateUser, hf, hv, h2]

theorem c7_authenticate_witness :
    (memRepo.get_user_by_username
        [insertedUser ⟨"Alice", "Smith", "pw1234", none⟩ (fun p => p) 0
          "alice.smith" "oid0"] "alice.smith" =
      some (insertedUser ⟨"Alice", "Smith", "pw1234", none⟩ (fun p => p) 0
        "alice.smith" "oid0")) ∧
    authenticateUser memRepo (fun p h => p == h)
        [insertedUser ⟨"Alice", "Smith", "pw1234", none⟩ (fun p => p) 0
          "alice.smith" "oid0"] "alice.smith" "pw1234" =
      some (toResponse (insertedUser ⟨"Alice", "Smith", "pw1234", none⟩
        (fun p => p) 0 "alice.smith" "oid0")) ∧
    authenticateUser memRepo (fun p h => p == h) ([] : List User) "bob" "x" =
      none ∧
    authenticateUser memRepo (fun p h => p == h)
        [insertedUser ⟨"Alice", "Smith", "pw1234", none⟩ (fun p => p) 0
          "alice.smith" "oid0"] "alice.smith" "wrong" =
      authenticateUser memRepo (fun p h => p == h) ([] : List User) "bob" "x" := by
  obtain ⟨h1, h2, -, h4⟩ := c7_authenticate (List User) memRepo
    (fun p h => p == h)
    [insertedUser ⟨"Alice", "Smith", "pw1234", none⟩ (fun p => p) 0
      "alice.smith" "oid0"]
    [] [insertedUser ⟨"Alice", "Smith", "pw1234", none⟩ (fun p => p) 0
      "alice.smith" "oid0"]
    "alice.smith" "bob" "alice.smith" "pw1234" "x" "wrong"
    (insertedUser ⟨"Alice", "Smith", "pw1234", none⟩ (fun p => p) 0
      "alice.smith" "oid0")
    (insertedUser ⟨"Alice", "Smith", "pw1234", none⟩ (fun p => p) 0
      "alice.smith" "oid0")
  exact ⟨by decide, h1 (by decide) (by decide), h2 (by decide),
    h4 (by decide) (by decide) (by decide)⟩

/-- C8: verifying a freshly issued token returns its subject; once the
ttl has elapsed verification returns the uniform no-identity result; and
malformed tokens, tokens signed under a different key, and tokens without
a subject claim all verify to the same `none`. -/
theorem c8_token_lifecycle (key : String) (now : Nat) (subject : String)
    (ttl : Nat) :
    verifyToken key now
      (createAccessToken key now [("sub", subject)] (some ttl)) =
      some subject ∧
    (∀ now', now + ttl < now' →
      verifyToken key now'
        (createAccessToken key now [("sub", subject)] (some ttl)) = none) ∧
    (∀ raw, verifyToken key now (Token.malformed raw) = none) ∧
    (∀ claims exp k', k' ≠ key →
      verifyToken key now (Token.signed claims exp k') = none) ∧
    (∀ claims exp, claimsGet "sub" claims = none →
      verifyToken key now (Token.signed claims exp key) = none) := by
  refine ⟨?_, ?_, ?_, ?_, ?_⟩
  · simp [verifyToken, createAccessToken, jwtEncode, jwtDecode, claimsGet]
  · intro now' h
    simp [verifyToken, createAccessToken, jwtEncode, jwtDecode, h]
  · intro raw
    simp [verifyToken, jwtDecode]
  · intro claims exp k' h
    simp [verifyToken, jwtDecode, h]
  · intro claims exp h
    cases exp with
    | none => simp [verifyToken, jwtDecode, h]
    | some e =>
      by_cases he : e < now
      · simp [verifyToken, jwtDecode, he]
      · simp [verifyToken, jwtDecode, he, h]

theorem c8_token_lifecycle_witness :
    verifyToken "secret" 1000
      (createAccessToken "secret" 1000 [("sub", "alice.smith")] (some 1800)) =
      some "alice.smith" ∧
    verifyToken "secret" 2801
      (createAccessToken "secret" 1000 [("sub", "alice.smith")] (some 1800)) =
      none ∧
    verifyToken "secret" 1000 (Token.malformed "not.a.valid.token") = none ∧
    verifyToken "secret" 1000
      (Token.signed [("sub", "alice.smith")] (some 2800) "other") = none ∧
    verifyToken "secret" 1000 (Token.signed [] (some 2800) "secret") = none := by
  obtain ⟨h1, h2, h3, h4, h5⟩ := c8_token_lifecycle "secret" 1000 "alice.smith" 1800
  exact ⟨h1, h2 2801 (by decide), h3 "not.a.valid.token",
    h4 [("sub", "alice.smith")] (some 2800) "other" (by decide),
    h5 [] (some 2800) (by decide)⟩

/-- A concrete stand-in for the external `hashlib.md5(·).hexdigest()`
primitive, for the closed instances below. -/
def md5Fix : String → String := fun _ => "0123456789abcdef0123456789abcdef"

/-- C5, code evaluated at the failing input: with every tier-1 candidate
of `"john.doe"` occupied, the resolver constructs the tier-2 candidate
`base + "." + hash6` but in the same iteration the safety check
unconditionally overwrites it with the tier-3 name and breaks: the tier-2
candidate — here `"john.doe.012345"`, which is free — is never handed to
the existence check (the trace holds exactly the 1000 tier-1 candidates)
and is not returned. -/
theorem c5_tier2_dead :
    getUniqueUsername md5Fix 0
        (fun u => (candList "john.doe" 1000).contains u) "john.doe" =
      (fallbackName md5Fix 0 "john.doe", candList "john.doe" 1000) ∧
    fallbackName md5Fix 0 "john.doe" = "user.01234567" ∧
    tier2Name md5Fix 0 "john.doe" = "john.doe.012345" ∧
    ((candList "john.doe" 1000).contains (tier2Name md5Fix 0 "john.doe")
      = false) ∧
    tier2Name md5Fix 0 "john.doe" ∉ candList "john.doe" 1000 ∧
    resolveUnique md5Fix 0
        (fun u => (candList "john.doe" 1000).contains u) "john.doe" =
      "user.01234567" ∧
    resolveUnique md5Fix 0
        (fun u => (candList "john.doe" 1000).contains u) "john.doe" ≠
      tier2Name md5Fix 0 "john.doe" := by
  have hmem : ∀ j, j ≤ 999 →
      ((candList "john.doe" 1000).contains (cand "john.doe" j)) = true := by
    intro j hj
    exact List.elem_eq_true_of_mem (cand_mem_candList.mpr (by omega))
  have hmain := @resolve_exhausted md5Fix 0
    (fun u => (candList "john.doe" 1000).contains u) "john.doe" hmem
  have hname := @resolve_exhausted_name md5Fix 0
    (fun u => (candList "john.doe" 1000).contains u) "john.doe" hmem
  have hnotmem : tier2Name md5Fix 0 "john.doe" ∉ candList "john.doe" 1000 := by
    intro hc
    rcases List.mem_map.mp hc with ⟨i, hi, hci⟩
    have hi' : i < 1000 := List.mem_range.mp hi
    match i, hi' with
    | 0, _ =>
      have := congrArg (fun x => x.data.length) hci
      simp [cand, tier2Name, md5Fix, strTake, strAppend_data] at this
    | (j + 1), _ =>
      have : Nat.repr (j + 1) = ".012345" := by
        apply strExt
        have := @strAppend_left_cancel "john.doe"
          (Nat.repr (j + 1)) ".012345"
          (by
            have h2 : cand "john.doe" (j + 1) =
                ("john.doe" : String) ++ Nat.repr (j + 1) := rfl
            have h3 : tier2Name md5Fix 0 "john.doe" =
                ("john.doe" : String) ++ ".012345" := by
              apply strExt
              simp [tier2Name, md5Fix, strTake, strAppend_data]
            rw [← h2, ← h3]
            exact hci)
        rw [this]
      have hdig := toDigits_all_digits (j + 1)
      rw [← repr_data, this] at hdig
      have : ('.' : Char).isDigit = true := hdig '.' (by decide)
      exact absurd this (by decide)
  refine ⟨hmain, by decide, by decide, ?_, hnotmem, ?_, ?_⟩
  · rw [Bool.eq_false_iff]
    intro hc
    exact hnotmem (List.elem_iff.mp hc)
  · rw [hname]
    decide
  · rw [hname]
    decide

/-! ### Race scenarios for the creation retry protocol (C2, C10)

The store state between the pre-insert existence check and the insert is
controlled by concurrent writers; the scripted stores below model the race
the spec's §4.3 step 6 describes: the existence check sees the name free,
yet the store's unique index fires at insert time. -/

/-- Raw driver behavior when a concurrent request has claimed the
username: `insert_one` raises `DuplicateKeyError` naming the `username_1`
index.  State counts the insert attempts. -/
def raceIns : Nat → User → Except MongoErr User × Nat :=
  fun n _ => (Except.error (MongoErr.dupKey mongoDupMsg), n + 1)

/-- Embedding of `MongoUserRepository` over the raced store. -/
def raceRepo : Repo Nat where
  username_exists _ _ := false
  create_user := mongoRepoCreate raceIns
  get_user_by_username _ _ := none
  get_all_users _ := []

/-- Raw driver behavior for a duplicate on some *other* unique index
(message without the word `username`). -/
def emailDupIns : Nat → User → Except MongoErr User × Nat :=
  fun n _ =>
    (Except.error (MongoErr.dupKey
      "E11000 duplicate key error collection: cats_db.users index: email_1 dup key"),
     n + 1)

/-- Embedding of `MongoUserRepository` over the other-index-duplicate store. -/
def emailDupRepo : Repo Nat where
  username_exists _ _ := false
  create_user := mongoRepoCreate emailDupIns
  get_user_by_username _ _ := none
  get_all_users _ := []

theorem raceRepo_resolve (n : Nat) (base : String) :
    resolveUnique md5Fix 0 (raceRepo.username_exists n) base = base :=
  resolve_first_free_name 0 (by omega) (fun j hj => absurd hj (by omega)) rfl

theorem emailDupRepo_resolve (n : Nat) (base : String) :
    resolveUnique md5Fix 0 (emailDupRepo.username_exists n) base = base :=
  resolve_first_free_name 0 (by omega) (fun j hj => absurd hj (by omega)) rfl

/-- C2, code evaluated at the failing input: when the store's uniqueness
constraint on `username` fires at insert time, `MongoUserRepository`
rewrites the `DuplicateKeyError` into `"Username '…' already exists"` — a
message containing neither `"duplicate"` nor `"unique"` — so the
service's duplicate test misses it: the insert is attempted exactly once,
no re-resolution happens, and the failure escapes immediately (wrapped).
Conversely a `DuplicateKeyError` on a non-`username` index becomes
`"Duplicate data error occurred"`, which *is* retried to exhaustion. -/
theorem c2_retry_misfires :
    strIn "username" mongoDupMsg = true ∧
    isDuplicateMsg "Username 'john.doe' already exists" = false ∧
    createUserSvc raceRepo md5Fix (fun p => p) 0
        ⟨"John", "Doe", "pw1234", none⟩ 0 =
      (Except.error "Error creating user: Username 'john.doe' already exists",
       ["john.doe"]) ∧
    isDuplicateMsg "Duplicate data error occurred" = true ∧
    createUserSvc emailDupRepo md5Fix (fun p => p) 0
        ⟨"John", "Doe", "pw1234", none⟩ 0 =
      (Except.error "Error creating user: Failed to create unique username after 3 attempts",
       ["john.doe", "john.doe", "john.doe"]) := by
  have hgen : generateUsername 0 "John" "Doe" = "john.doe" := by decide
  have h1 : raceRepo.create_user 0
      { id := none, first_name := "John", last_name := "Doe",
        username := "john.doe", password := "pw1234", email := none,
        created_at := 0, updated_at := 0 } =
      (Except.error "Username 'john.doe' already exists", 1) := rfl
  have hE : ∀ (n : Nat) (u : User), emailDupRepo.create_user n u =
      (Except.error "Duplicate data error occurred", n + 1) := fun n u => rfl
  refine ⟨by decide, by decide, ?_, by decide, ?_⟩
  · simp only [createUserSvc, raceRepo_resolve, hgen]
    rw [createLoop_err_other h1 (by decide)]
    rfl
  · simp only [createUserSvc, emailDupRepo_resolve, hgen]
    rw [createLoop_err_retry 0 (hE 0 _) (by decide) (by omega)]
    simp only [emailDupRepo_resolve]
    rw [createLoop_err_retry 1 (hE 1 _) (by decide) (by omega)]
    simp only [emailDupRepo_resolve]
    rw [createLoop_err_exhaust 2 (hE 2 _) (by decide) (by omega)]
    rfl

theorem createUserWrap_error {σ : Type}
    (r : Except String (User × σ) × List String) (e : String)
    (h : (createUserWrap r).fst = Except.error e) :
    ∃ c, e = "Error creating user: " ++ c := by
  rcases r with ⟨r, tr⟩
  cases r with
  | ok v =>
    rcases v with ⟨created, s'⟩
    simp [createUserWrap] at h
  | error e' =>
    refine ⟨e', ?_⟩
    simpa [createUserWrap] using h.symm

/-- C10: every failure of `create_user` surfaces as the single wrapped
message `"Error creating user: " + cause` (one error channel), and when
every insert attempt fails with a duplicate-flagged message the caller
receives exactly
`"Error creating user: Failed to create unique username after 3 attempts"`
— the terminal retry-exhaustion message only ever escapes inside the
wrapper. -/
theorem c10_error_wrapping (σ : Type) (R : Repo σ)
    (md5 hashPw : String → String) (t : Nat) (uc : UserCreate) (s : σ)
    (err : σ → User → String) (nxt : σ → User → σ) :
    (∀ e, (createUserSvc R md5 hashPw t uc s).fst = Except.error e →
      ∃ c, e = "Error creating user: " ++ c) ∧
    ((∀ x u, R.create_user x u = (Except.error (err x u), nxt x u)) →
     (∀ x u, isDuplicateMsg (err x u) = true) →
      (createUserSvc R md5 hashPw t uc s).fst =
        Except.error
          "Error creating user: Failed to create unique username after 3 attempts") := by
  constructor
  · intro e he
    simp only [createUserSvc] at he
    exact createUserWrap_error _ e he
  · intro hins hdup
    simp only [createUserSvc]
    rw [createLoop_err_retry 0 (hins s _) (hdup s _) (by omega)]
    rw [createLoop_err_retry 1 (hins _ _) (hdup _ _) (by omega)]
    rw [createLoop_err_exhaust 2 (hins _ _) (hdup _ _) (by omega)]
    rfl

theorem c10_error_wrapping_witness :
    (createUserSvc emailDupRepo md5Fix (fun p => p) 0
        ⟨"John", "Doe", "pw1234", none⟩ 0).fst =
      Except.error
        "Error creating user: Failed to create unique username after 3 attempts" ∧
    ∃ c, "Error creating user: Failed to create unique username after 3 attempts" =
      "Error creating user: " ++ c := by
  obtain ⟨h1, h2⟩ := c10_error_wrapping Nat emailDupRepo md5Fix (fun p => p) 0
    ⟨"John", "Doe", "pw1234", none⟩ 0
    (fun _ _ => "Duplicate data error occurred") (fun n _ => n + 1)
  have hmain := h2 (fun x u => rfl) (fun x u => by decide)
  exact ⟨hmain, h1 _ hmain⟩

theorem storeK_usernames (ucs : Nat → UserCreate) (hs : Nat → String → String)
    (t : Nat) (base : String) (n : Nat) :
    (storeK ucs hs t base n).map (fun x => x.username) = candList base n := by
  simp [storeK, mkUserK, candList, insertedUser]

theorem candList_nodup (base : String) (n : Nat) : (candList base n).Nodup :=
  (List.nodup_range n).map (fun a b hab => cand_inj hab)

/-- C1, amended: for `1 ≤ N ≤ 1000`, `N` sequential creations with
identical names against an initially empty store yield exactly the
usernames `base, base1, …, base(N-1)`, in order and pairwise distinct.
(Beyond `N = 1000` tier 1 is exhausted and the pattern breaks, see the
counterexample.) -/
theorem c1_sequential_usernames (md5 : String → String)
    (ucs : Nat → UserCreate) (hs : Nat → String → String) (t : Nat)
    (f l : String) (N : Nat)
    (hf : ∀ i, (ucs i).first_name = f) (hl : ∀ i, (ucs i).last_name = l)
    (hN1 : 1 ≤ N) (hN2 : N ≤ 1000) :
    (seqState md5 ucs hs t N).snd = candList (generateUsername t f l) N ∧
    ((seqState md5 ucs hs t N).snd).Nodup := by
  have h := seqState_eq md5 ucs hs t f l hf hl N hN2
  rw [h]
  exact ⟨rfl, candList_nodup _ N⟩

theorem c1_sequential_usernames_witness :
    1 ≤ 3 ∧ (3 : Nat) ≤ 1000 ∧
    ((seqState md5Fix (fun _ => ⟨"John", "Doe", "pw1234", none⟩)
        (fun _ p => p) 0 3).snd =
      candList (generateUsername 0 "John" "Doe") 3 ∧
    ((seqState md5Fix (fun _ => ⟨"John", "Doe", "pw1234", none⟩)
        (fun _ p => p) 0 3).snd).Nodup) :=
  ⟨by decide, by decide,
   c1_sequential_usernames md5Fix (fun _ => ⟨"John", "Doe", "pw1234", none⟩)
     (fun _ p => p) 0 "John" "Doe" 3 (fun i => rfl) (fun i => rfl)
     (by decide) (by decide)⟩

/-- A `create_user` call against a store occupying all 1000 tier-1
candidates inserts the tier-3 fallback name. -/
theorem createUserSvc_exhaust {md5 hashPw : String → String} {t : Nat}
    {uc : UserCreate} {base : String} {s : List User}
    (hb : generateUsername t uc.first_name uc.last_name = base)
    (hall : ∀ j, j ≤ 999 → memRepo.username_exists s (cand base j) = true)
    (hfree : memRepo.username_exists s (fallbackName md5 t base) = false) :
    createUserSvc memRepo md5 hashPw t uc s =
      (Except.ok
        (toResponse (insertedUser uc hashPw t (fallbackName md5 t base)
          ("oid" ++ Nat.repr s.length)),
         s ++ [insertedUser uc hashPw t (fallbackName md5 t base)
          ("oid" ++ Nat.repr s.length)]),
       [fallbackName md5 t base]) := by
  have hres : resolveUnique md5 t (memRepo.username_exists s) base =
      fallbackName md5 t base := resolve_exhausted_name hall
  have hins : memRepo.create_user s
      { id := none
        first_name := uc.first_name
        last_name := uc.last_name
        username := fallbackName md5 t base
        password := hashPw uc.password
        email := uc.email
        created_at := t
        updated_at := t } =
      (Except.ok (insertedUser uc hashPw t (fallbackName md5 t base)
        ("oid" ++ Nat.repr s.length)),
       s ++ [insertedUser uc hashPw t (fallbackName md5 t base)
        ("oid" ++ Nat.repr s.length)]) := by
    show mongoRepoCreate mongoInsert s _ = _
    unfold mongoRepoCreate mongoInsert
    rw [show (s.any fun x => x.username == fallbackName md5 t base) = false
      from hfree]
    simp only [Bool.false_eq_true, if_false]
    rfl
  simp only [createUserSvc, hb, hres]
  rw [createLoop_ok hins]
  rfl

/-- The 1001st sequential creation: tier 1 is exhausted, so the fallback
name is produced instead of `base1000`. -/
theorem seqState_1001 (md5 : String → String) (ucs : Nat → UserCreate)
    (hs : Nat → String → String) (t : Nat) (f l : String)
    (hf : ∀ i, (ucs i).first_name = f) (hl : ∀ i, (ucs i).last_name = l)
    (hfree : memRepo.username_exists
      (storeK ucs hs t (generateUsername t f l) 1000)
      (fallbackName md5 t (generateUsername t f l)) = false) :
    (seqState md5 ucs hs t 1001).snd =
      candList (generateUsername t f l) 1000 ++
        [fallbackName md5 t (generateUsername t f l)] := by
  have h1000 := seqState_eq md5 ucs hs t f l hf hl 1000 (by omega)
  have hall : ∀ j, j ≤ 999 →
      memRepo.username_exists (storeK ucs hs t (generateUsername t f l) 1000)
        (cand (generateUsername t f l) j) = true := by
    intro j hj
    apply memRepo_exists_iff.mpr
    rw [storeK_usernames]
    exact cand_mem_candList.mpr (by omega)
  have hstep := @createUserSvc_exhaust md5 (hs 1000) t (ucs 1000)
    (generateUsername t f l) (storeK ucs hs t (generateUsername t f l) 1000)
    (by rw [hf 1000, hl 1000]) hall hfree
  rw [show (1001 : Nat) = 1000 + 1 from rfl, seqState, h1000]
  simp only [hstep]
  rfl

set_option maxRecDepth 4000 in
/-- C1, counterexample at `N = 1001`: the 1001st creation returns the
synthetic `"user.01234567"` (under the concrete md5 model), not
`"john.doe1000"`, so the claimed pattern fails for `N ≥ 1001`. -/
theorem c1_counterexample :
    (seqState md5Fix (fun _ => ⟨"John", "Doe", "pw1234", none⟩)
        (fun _ p => p) 0 1001).snd =
      candList "john.doe" 1000 ++ ["user.01234567"] ∧
    (seqState md5Fix (fun _ => ⟨"John", "Doe", "pw1234", none⟩)
        (fun _ p => p) 0 1001).snd ≠
      candList (generateUsername 0 "John" "Doe") 1001 := by
  have hgen : generateUsername 0 "John" "Doe" = "john.doe" := by decide
  have hfall : fallbackName md5Fix 0 "john.doe" = "user.01234567" := by decide
  have husr : ∀ j, cand "john.doe" j ≠ "user.01234567" := by
    intro j hc
    cases j with
    | zero => exact absurd hc (by decide)
    | succ k =>
      rw [show cand "john.doe" (k + 1) = "john.doe" ++ Nat.repr (k + 1)
        from rfl] at hc
      have h2 := congrArg String.data hc
      rw [strAppend_data] at h2
      rw [show ("john.doe" : String).data =
        ['j', 'o', 'h', 'n', '.', 'd', 'o', 'e'] from rfl] at h2
      rw [show ("user.01234567" : String).data =
        ['u', 's', 'e', 'r', '.', '0', '1', '2', '3', '4', '5', '6', '7']
        from rfl] at h2
      simp at h2
  have hfree : memRepo.username_exists
      (storeK (fun _ => ⟨"John", "Doe", "pw1234", none⟩) (fun _ p => p) 0
        (generateUsername 0 "John" "Doe") 1000)
      (fallbackName md5Fix 0 (generateUsername 0 "John" "Doe")) = false := by
    apply memRepo_exists_false
    rw [storeK_usernames, hgen, hfall]
    intro hc
    rcases List.mem_map.mp hc with ⟨i, hi, hci⟩
    exact husr i hci
  have hmain := seqState_1001 md5Fix (fun _ => ⟨"John", "Doe", "pw1234", none⟩)
    (fun _ p => p) 0 "John" "Doe" (fun i => rfl) (fun i => rfl) hfree
  rw [hgen, hfall] at hmain
  refine ⟨hmain, ?_⟩
  rw [hmain, hgen]
  rw [show (1001 : Nat) = 1000 + 1 from rfl, candList_succ]
  intro hc
  have := List.append_cancel_left hc
  simp only [List.cons.injEq, and_true] at this
  exact absurd this (by decide)

/-! ### Hash noninterference (C9) -/

/-- Two stores that differ only in the stored password hashes: pointwise,
the password-free projections agree. -/
def relEP (s1 s2 : List User) : Prop :=
  List.Forall₂ (fun u v => toResponse u = toResponse v) s1 s2

theorem relEP_usernames {s1 s2 : List User} (h : relEP s1 s2) :
    s1.map (fun x => x.username) = s2.map (fun x => x.username) := by
  induction h with
  | nil => rfl
  | cons hu ht ih =>
    simp only [List.map_cons, ih, List.cons.injEq, and_true]
    exact congrArg UserResponse.username hu

theorem relEP_any {s1 s2 : List User} (h : relEP s1 s2) (uname : String) :
    s1.any (fun x => x.username == uname) =
      s2.any (fun x => x.username == uname) := by
  induction h with
  | nil => rfl
  | @cons u v l1 l2 hu ht ih =>
    have huser : u.username = v.username := congrArg UserResponse.username hu
    rw [List.any_cons, List.any_cons, ih, huser]

theorem relEP_exists {s1 s2 : List User} (h : relEP s1 s2) :
    memRepo.username_exists s1 = memRepo.username_exists s2 := by
  funext uname
  exact relEP_any h uname

theorem relEP_map_toResponse {s1 s2 : List User} (h : relEP s1 s2) :
    s1.map toResponse = s2.map toResponse := by
  induction h with
  | nil => rfl
  | cons hu ht ih =>
    simp only [List.map_cons, ih, List.cons.injEq, and_true]
    exact hu

theorem relEP_find {s1 s2 : List User} (h : relEP s1 s2) (uname : String) :
    (s1.find? (fun x => x.username == uname)).map toResponse =
    (s2.find? (fun x => x.username == uname)).map toResponse := by
  induction h with
  | nil => rfl
  | @cons u v l1 l2 hu ht ih =>
    have huser : u.username = v.username := congrArg UserResponse.username hu
    by_cases hp : (u.username == uname) = true
    · rw [@List.find?_cons_of_pos User (fun x => x.username == uname) u l1 hp,
          @List.find?_cons_of_pos User (fun x => x.username == uname) v l2
            (by show (v.username == uname) = true; rw [← huser]; exact hp)]
      simp only [Option.map_some']
      exact congrArg some hu
    · rw [@List.find?_cons_of_neg User (fun x => x.username == uname) u l1 hp,
          @List.find?_cons_of_neg User (fun x => x.username == uname) v l2
            (by show ¬ (v.username == uname) = true; rw [← huser]; exact hp)]
      exact ih

theorem relEP_auth {verify : String → String → Bool} {pw : String}
    {s1 s2 : List User}
    (h : List.Forall₂ (fun u v => toResponse u = toResponse v ∧
      verify pw u.password = verify pw v.password) s1 s2) (uname : String) :
    authenticateUser memRepo verify s1 uname pw =
      authenticateUser memRepo verify s2 uname pw := by
  induction h with
  | nil => rfl
  | @cons u v l1 l2 hu ht ih =>
    obtain ⟨hresp, hver⟩ := hu
    have huser : u.username = v.username := congrArg UserResponse.username hresp
    show (match (u :: l1).find? (fun x => x.username == uname) with
          | none => none
          | some user => if verify pw user.password then
              some (toResponse user) else none) =
         (match (v :: l2).find? (fun x => x.username == uname) with
          | none => none
          | some user => if verify pw user.password then
              some (toResponse user) else none)
    by_cases hp : (u.username == uname) = true
    · rw [@List.find?_cons_of_pos User (fun x => x.username == uname) u l1 hp,
          @List.find?_cons_of_pos User (fun x => x.username == uname) v l2
            (by show (v.username == uname) = true; rw [← huser]; exact hp)]
      dsimp only
      rw [hver, hresp]
    · rw [@List.find?_cons_of_neg User (fun x => x.username == uname) u l1 hp,
          @List.find?_cons_of_neg User (fun x => x.username == uname) v l2
            (by show ¬ (v.username == uname) = true; rw [← huser]; exact hp)]
      exact ih

/-- Result relation for the retry loop over hash-erased stores. -/
def relEPr : Except String (User × List User) →
    Except String (User × List User) → Prop
  | Except.ok (c1, t1), Except.ok (c2, t2) => c1 = c2 ∧ relEP t1 t2
  | Except.error e1, Except.error e2 => e1 = e2
  | _, _ => False

theorem memRepo_create_free {s : List User} {u : User}
    (hx : memRepo.username_exists s u.username = false) :
    memRepo.create_user s u =
      (Except.ok { u with id := some ("oid" ++ Nat.repr s.length) },
       s ++ [{ u with id := some ("oid" ++ Nat.repr s.length) }]) := by
  show mongoRepoCreate mongoInsert s u = _
  unfold mongoRepoCreate mongoInsert
  rw [show (s.any fun x => x.username == u.username) = false from hx]
  simp only [Bool.false_eq_true, if_false]

theorem memRepo_create_taken {s : List User} {u : User}
    (hx : memRepo.username_exists s u.username = true) :
    memRepo.create_user s u =
      (Except.error ("Username '" ++ u.username ++ "' already exists"), s) := by
  show mongoRepoCreate mongoInsert s u = _
  unfold mongoRepoCreate mongoInsert
  rw [show (s.any fun x => x.username == u.username) = true from hx]
  simp only [if_true]
  rw [show strIn "username" mongoDupMsg = true from by decide]
  simp

theorem createLoop_relEP (md5 : String → String) (t : Nat) (base : String) :
    ∀ k a, 3 - a = k → ∀ (u : User) (s1 s2 : List User) (tr : List String),
      relEP s1 s2 →
      relEPr (createLoop memRepo md5 t base a u s1 tr).fst
             (createLoop memRepo md5 t base a u s2 tr).fst ∧
      (createLoop memRepo md5 t base a u s1 tr).snd =
        (createLoop memRepo md5 t base a u s2 tr).snd := by
  intro k
  induction k using Nat.strong_induction_on with
  | _ k ih =>
    intro a hk u s1 s2 tr h
    have hex := congrFun (relEP_exists h) u.username
    rw [createLoop, createLoop]
    by_cases hx : memRepo.username_exists s1 u.username = true
    · have hx2 : memRepo.username_exists s2 u.username = true := by
        rw [← hex]; exact hx
      rw [memRepo_create_taken hx, memRepo_create_taken hx2]
      dsimp only
      by_cases hd : isDuplicateMsg
          ("Username '" ++ u.username ++ "' already exists") = true
      · simp only [hd, if_true]
        by_cases ha : a < 2
        · simp only [ha, if_true]
          rw [relEP_exists h]
          exact ih (3 - (a + 1)) (by omega) (a + 1) rfl _ s1 s2 _ h
        · simp only [ha, if_false]
          exact ⟨rfl, by trivial⟩
      · have hd' : isDuplicateMsg
            ("Username '" ++ u.username ++ "' already exists") = false :=
          Bool.eq_false_iff.mpr hd
        simp only [hd', Bool.false_eq_true, if_false]
        exact ⟨rfl, by trivial⟩
    · have hx1 : memRepo.username_exists s1 u.username = false :=
        Bool.not_eq_true _ ▸ Bool.eq_false_iff.mpr hx
      have hx2 : memRepo.username_exists s2 u.username = false := by
        rw [← hex]; exact hx1
      rw [memRepo_create_free hx1, memRepo_create_free hx2]
      dsimp only
      rw [List.Forall₂.length_eq h]
      refine ⟨⟨rfl, ?_⟩, rfl⟩
      exact List.rel_append h
        (List.Forall₂.cons rfl List.Forall₂.nil)

theorem createUserWrap_relEP {r1 r2 : Except String (User × List User) × List String}
    (hr : relEPr r1.fst r2.fst) (htr : r1.snd = r2.snd) :
    ((createUserWrap r1).fst).map Prod.fst =
      ((createUserWrap r2).fst).map Prod.fst ∧
    (createUserWrap r1).snd = (createUserWrap r2).snd := by
  rcases r1 with ⟨r1, t1⟩
  rcases r2 with ⟨r2, t2⟩
  cases r1 with
  | ok v1 =>
    cases r2 with
    | ok v2 =>
      rcases v1 with ⟨c1, st1⟩
      rcases v2 with ⟨c2, st2⟩
      obtain ⟨hc, -⟩ := hr
      subst hc
      subst htr
      exact ⟨rfl, rfl⟩
    | error e2 => exact absurd hr (by intro hc; exact hc)
  | error e1 =>
    cases r2 with
    | ok v2 =>
      rcases v2 with ⟨c2, st2⟩
      exact absurd hr (by intro hc; exact hc)
    | error e2 =>
      have he : e1 = e2 := hr
      subst he
      subst htr
      exact ⟨rfl, rfl⟩

/-- Two concrete accounts differing only in the stored hash. -/
def u9a : User :=
  { id := some "oid0", first_name := "Alice", last_name := "Smith",
    username := "alice.smith", password := "secret", email := none,
    created_at := 0, updated_at := 0 }

/-- Like `u9a` with a different stored hash. -/
def u9b : User :=
  { id := some "oid0", first_name := "Alice", last_name := "Smith",
    username := "alice.smith", password := "other", email := none,
    created_at := 0, updated_at := 0 }

/-- C9, counterexample: the two singleton stores differ only in the
stored hash, yet `authenticate_user` answers differently on them (the
hash steers the verify outcome), so "equal outputs on hash-differing
stores" fails for `authenticate_user`. -/
theorem c9_counterexample :
    relEP [u9a] [u9b] ∧
    authenticateUser memRepo (fun p h => p == h) [u9a] "alice.smith" "secret" =
      some (toResponse u9a) ∧
    authenticateUser memRepo (fun p h => p == h) [u9b] "alice.smith" "secret" =
      none ∧
    authenticateUser memRepo (fun p h => p == h) [u9a] "alice.smith" "secret" ≠
      authenticateUser memRepo (fun p h => p == h) [u9b] "alice.smith"
        "secret" :=
  ⟨List.Forall₂.cons (by decide) List.Forall₂.nil,
   by decide, by decide, by decide⟩

/-- C9, amended: the outward projection `UserResponse` carries no
password field, and for any two stores that differ only in the stored
password hashes, `create_user` (response and insert trace),
`get_all_users` and `get_user_by_username` produce equal outputs;
`authenticate_user` produces equal outputs provided the secret verifies
equally against the corresponding hashes — without that proviso it can
differ (see the counterexample). -/
theorem c9_noninterference (s1 s2 : List User) (h : relEP s1 s2) :
    getAllUsersSvc memRepo s1 = getAllUsersSvc memRepo s2 ∧
    (∀ uname, getUserByUsernameSvc memRepo s1 uname =
      getUserByUsernameSvc memRepo s2 uname) ∧
    (∀ md5 hashPw : String → String, ∀ t : Nat, ∀ uc : UserCreate,
      ((createUserSvc memRepo md5 hashPw t uc s1).fst).map Prod.fst =
        ((createUserSvc memRepo md5 hashPw t uc s2).fst).map Prod.fst ∧
      (createUserSvc memRepo md5 hashPw t uc s1).snd =
        (createUserSvc memRepo md5 hashPw t uc s2).snd) ∧
    (∀ verify : String → String → Bool, ∀ uname pw : String,
      List.Forall₂ (fun u v => toResponse u = toResponse v ∧
        verify pw u.password = verify pw v.password) s1 s2 →
      authenticateUser memRepo verify s1 uname pw =
        authenticateUser memRepo verify s2 uname pw) := by
  refine ⟨relEP_map_toResponse h, ?_, ?_, ?_⟩
  · intro uname
    exact relEP_find h uname
  · intro md5 hashPw t uc
    simp only [createUserSvc, relEP_exists h]
    obtain ⟨hr, htr⟩ := createLoop_relEP md5 t
      (generateUsername t uc.first_name uc.last_name) 3 0 rfl
      { id := none
        first_name := uc.first_name
        last_name := uc.last_name
        username := resolveUnique md5 t (memRepo.username_exists s2)
          (generateUsername t uc.first_name uc.last_name)
        password := hashPw uc.password
        email := uc.email
        created_at := t
        updated_at := t } s1 s2 [] h
    exact createUserWrap_relEP hr htr
  · intro verify uname pw hver
    exact relEP_auth hver uname

theorem c9_noninterference_witness :
    relEP [u9a] [u9b] ∧
    getAllUsersSvc memRepo [u9a] = getAllUsersSvc memRepo [u9b] ∧
    getUserByUsernameSvc memRepo [u9a] "alice.smith" =
      getUserByUsernameSvc memRepo [u9b] "alice.smith" ∧
    authenticateUser memRepo (fun _ _ => true) [u9a] "alice.smith" "x" =
      authenticateUser memRepo (fun _ _ => true) [u9b] "alice.smith" "x" := by
  have hrel : relEP [u9a] [u9b] :=
    List.Forall₂.cons (by decide) List.Forall₂.nil
  obtain ⟨hA, hB, -, hD⟩ := c9_noninterference [u9a] [u9b] hrel
  exact ⟨hrel, hA, hB "alice.smith",
    hD (fun _ _ => true) "alice.smith" "x"
      (List.Forall₂.cons ⟨by decide, rfl⟩ List.Forall₂.nil)⟩

end CatsApi
